import Mathlib

/-!
Verification of the ranking-aggregation routines of `src/app.py`
(`normalize_event_id_val`, `get_total_entries`, `get_event_room_list_api`,
`get_event_participants`, `get_event_ranking`).

The Python code is shallowly embedded: dynamically typed Python values that
can reach the functions under scrutiny are modelled by the inductive `PyVal`
(`None`, `int`, floats carrying an integral value, and `str`); HTTP calls are
modelled by explicit oracles passed as function arguments; exceptions are
modelled with `Except`/`Option`.  Machine-level caveats of CPython that no
claim depends on are noted next to each definition (for example the loss of
precision of `float` beyond 2^53, underscores accepted by `int()`, and
Unicode digit classes: digits are modelled as ASCII digits).
-/

namespace SrRoomStatus

/-- Model of the Python values that flow into the helpers under scrutiny:
`None`, `int`, a `float` whose `is_integer()` is true (value `n.0`), and
`str`.  Floats with a nonzero fractional part never reach any behaviour a
claim mentions and are not modelled. -/
inductive PyVal where
  | pyNone
  | pyInt (n : Int)
  | pyFloatInt (n : Int)
  | pyStr (s : String)
deriving DecidableEq

/-- Python truthiness (`bool(v)`) for the modelled values. -/
def pyTruthy : PyVal → Bool
  | .pyNone => false
  | .pyInt n => n != 0
  | .pyFloatInt n => n != 0
  | .pyStr s => s != ""

/-- Model of the Python expression `a or b`. -/
def pyOr (a b : PyVal) : PyVal := if pyTruthy a then a else b

/-- Decimal digit character for a value below ten (`chr(48 + d)`). -/
def digitCh (d : Nat) : Char := Char.ofNat (48 + d)

/-- Numeric value of a decimal digit character. -/
def digitVal (c : Char) : Nat := c.toNat - 48

/-- Value of a decimal digit string, most significant digit first
(the exact integer denoted by a run of digits). -/
def digitsVal (cs : List Char) : Nat := cs.foldl (fun a c => a * 10 + digitVal c) 0

/-- Fuel-driven decimal printing of a natural number, used to model CPython
`str(int)` with an always-sufficient fuel. -/
def natReprAux : Nat → Nat → List Char
  | 0, _ => []
  | fuel + 1, n => if n < 10 then [digitCh n] else natReprAux fuel (n / 10) ++ [digitCh (n % 10)]

/-- Decimal representation of a natural number (model of `str(n)` for `n ≥ 0`). -/
def natDecRepr (n : Nat) : String := ⟨natReprAux (n + 1) n⟩

/-- Decimal representation of an integer (model of `str(n)` for Python `int`). -/
def intRepr (n : Int) : String :=
  if n < 0 then "-" ++ natDecRepr n.natAbs else natDecRepr n.natAbs

/-- Model of Python `str(v)` on the modelled values.  A float with integral
value `n` prints as `n.0` in CPython. -/
def pyStrOf : PyVal → String
  | .pyNone => "None"
  | .pyInt n => intRepr n
  | .pyFloatInt n => intRepr n ++ ".0"
  | .pyStr s => s

/-- Characters stripped by Python `str.strip()` (codepoint test: space, tab,
newline, carriage return, vertical tab, form feed). -/
def isSpaceCh (c : Char) : Bool :=
  c.toNat == 32 || c.toNat == 9 || c.toNat == 10 || c.toNat == 13 ||
    c.toNat == 11 || c.toNat == 12

/-- ASCII decimal digit test (codepoints 48 to 57).  Python character
classes also cover non-ASCII Unicode digits; those never carry a behaviour
any claim depends on and are modelled as non-digits. -/
def isDigitCh (c : Char) : Bool := 48 ≤ c.toNat && c.toNat ≤ 57

/-- The dot character. -/
def isDotCh (c : Char) : Bool := c.toNat == 46

/-- The zero character. -/
def isZeroCh (c : Char) : Bool := c.toNat == 48

/-- Model of Python `str.strip()`. -/
def pyStrip (s : String) : String :=
  ⟨List.rdropWhile isSpaceCh (s.data.dropWhile isSpaceCh)⟩

/-- Nonempty run of decimal digits (model of Python `str.isdigit()`). -/
def isDigits (cs : List Char) : Bool := !cs.isEmpty && cs.all isDigitCh

/-- Model of the regular expression used by `normalize_event_id_val`,
which accepts a digit run optionally followed by a dot and a
nonempty run of zeros. -/
def matchesIntegralRe (cs : List Char) : Bool :=
  let d := cs.takeWhile isDigitCh
  let rest := cs.dropWhile isDigitCh
  !d.isEmpty &&
    (rest.isEmpty ||
      (isDotCh (rest.headD (digitCh 0)) && !rest.tail.isEmpty && rest.tail.all isZeroCh))

/-- Integer value of a string accepted by `matchesIntegralRe`
(model of `int(float(s))` on such a string; the float round-trip is modelled
exactly, CPython precision loss beyond 2^53 is not modelled). -/
def integralValue (cs : List Char) : Nat := digitsVal (cs.takeWhile isDigitCh)

/-- Model of `normalize_event_id_val` from `src/app.py`:
`None` is invalid; an `int` prints as-is; a float with integral value prints
as that integer; a string is stripped, integral-looking forms (such as
`"123.0"`) are rewritten to the plain integer string, the empty string is
invalid, and anything else is returned stripped. -/
def normalize_event_id_val : PyVal → Option String
  | .pyNone => none
  | .pyInt n => some (intRepr n)
  | .pyFloatInt n => some (intRepr n)
  | .pyStr s =>
    if matchesIntegralRe (pyStrip s).data then some (natDecRepr (integralValue (pyStrip s).data))
    else if pyStrip s = "" then none
    else some (pyStrip s)

/-- Re-inject the result of normalization as a Python value, to state
idempotence (`None` for an invalid result). -/
def liftNorm : Option String → PyVal
  | none => .pyNone
  | some s => .pyStr s

/-- Leading sign of a numeric literal: returns the sign factor and the rest
of the characters (codepoints 43 and 45 are `+` and `-`). -/
def signSplit (cs : List Char) : Int × List Char :=
  match cs with
  | [] => (1, [])
  | c :: t => if c.toNat == 43 then (1, t) else if c.toNat == 45 then ((-1 : Int), t) else (1, cs)

/-- Model of Python `int(s)` on a string: strip, optional sign, digits
(underscore separators of CPython literals are not modelled). -/
def parseIntPy? (s : String) : Option Int :=
  let cs := (pyStrip s).data
  if isDigits (signSplit cs).2 then some ((signSplit cs).1 * (digitsVal (signSplit cs).2 : Int))
  else none

/-- Model of Python `int(v)` on the modelled values (`int(None)` raises). -/
def pyIntConv? : PyVal → Option Int
  | .pyInt n => some n
  | .pyFloatInt n => some n
  | .pyNone => none
  | .pyStr s => parseIntPy? s

/-- Model of Python `int(float(s))`: strip, optional sign, digits with an
optional dot and fractional digits; the value truncates toward zero
(exponent and `inf`/`nan` forms are not modelled and map to failure). -/
def parseFloatTruncPy? (s : String) : Option Int :=
  let cs := (pyStrip s).data
  let t := (signSplit cs).2
  let ip := t.takeWhile isDigitCh
  match t.dropWhile isDigitCh with
  | [] => if ip.isEmpty then none else some ((signSplit cs).1 * (digitsVal ip : Int))
  | c :: fr =>
    if isDotCh c && (!ip.isEmpty || !fr.isEmpty) && fr.all isDigitCh then
      some ((signSplit cs).1 * (digitsVal ip : Int))
    else none

/-- Model of Python `int(float(v))` (`float(None)` raises). -/
def pyFloatTruncConv? : PyVal → Option Int
  | .pyInt n => some n
  | .pyFloatInt n => some n
  | .pyNone => none
  | .pyStr s => parseFloatTruncPy? s

/-- Score extraction of `get_event_ranking`: `int(raw)`, with fallback
`int(float(raw))`, with fallback `0`. -/
def pointOf (raw : PyVal) : Int :=
  match pyIntConv? raw with
  | some n => n
  | none => (pyFloatTruncConv? raw).getD 0

/-- Rank field of a normalized ranking record: a Python `int`, a float
with integral value, or a string (`"-"` for a missing rank). -/
inductive NRank where
  | nrInt (n : Int)
  | nrFloatInt (n : Int)
  | nrStr (s : String)
deriving DecidableEq

/-- Whether the rank is a Python `int` (the `isinstance(..., int)` test). -/
def NRank.isIntRank : NRank → Bool
  | .nrInt _ => true
  | _ => false

/-- Value of `int(raw)` under the guard `str(raw).isdigit()` of the rank
extraction (the unguarded branches are unreachable there). -/
def intDigitsConv : PyVal → Int
  | .pyInt n => n
  | .pyStr s => (digitsVal s.data : Int)
  | .pyFloatInt n => n
  | .pyNone => 0

/-- Rank extraction of `get_event_ranking`:
`int(raw)` when `raw is not None and str(raw).isdigit()`, otherwise the raw
value, with `None` rendered as the string `"-"`. -/
def nrankOf (raw : PyVal) : NRank :=
  if raw != .pyNone && isDigits (pyStrOf raw).data then .nrInt (intDigitsConv raw)
  else
    match raw with
    | .pyNone => .nrStr "-"
    | .pyInt n => .nrInt n
    | .pyFloatInt n => .nrFloatInt n
    | .pyStr s => .nrStr s

/-- The `event_entry` sub-object of a listing record (only the keys the
code reads). -/
structure EvEntry where
  quest_level : PyVal := .pyNone
  questLevel : PyVal := .pyNone
  level : PyVal := .pyNone
deriving DecidableEq

/-- One raw record of the ranking listing, with every key
`get_event_ranking` reads; a missing key is `pyNone` (`dict.get` yields
`None`).  The `event_entry` fields are `none` when absent, `None`, or a
falsy empty object (Python truthiness of the sub-dict is absorbed into the
`Option`; no claim depends on `quest_level`). -/
structure RawRoom where
  room_id : PyVal := .pyNone
  roomId : PyVal := .pyNone
  room_name : PyVal := .pyNone
  performer_name : PyVal := .pyNone
  event_entry : Option EvEntry := none
  eventEntry : Option EvEntry := none
  point : PyVal := .pyNone
  event_point : PyVal := .pyNone
  total_point : PyVal := .pyNone
  rank : PyVal := .pyNone
  position : PyVal := .pyNone
deriving DecidableEq

/-- A normalized ranking record (the dict appended to `normalized`; the
`_raw` debug field is not modelled). -/
structure NRoom where
  room_id : String
  room_name : PyVal
  rank : NRank
  point : Int
  quest_level : PyVal
deriving DecidableEq

/-- Quest-level extraction (`event_entry.quest_level` with aliases, then
`int(...)` best effort, then `""` for a missing value). -/
def questOf (r : RawRoom) : PyVal :=
  match r.event_entry.orElse (fun _ => r.eventEntry) with
  | none => .pyStr ""
  | some ev =>
    let ql := pyOr (pyOr ev.quest_level ev.questLevel) ev.level
    let ql2 := if ql = .pyNone then ql
      else match pyIntConv? ql with
        | some n => PyVal.pyInt n
        | none => ql
    if ql2 = .pyNone then .pyStr "" else ql2

/-- Field extraction of `get_event_ranking` for one raw record. -/
def normalizeRoom (r : RawRoom) : NRoom :=
  { room_id := pyStrOf (pyOr (pyOr r.room_id r.roomId) (.pyStr ""))
    room_name := pyOr (pyOr r.room_name r.performer_name) (.pyStr "")
    rank := nrankOf (pyOr r.rank r.position)
    point := pointOf (pyOr (pyOr (pyOr r.point r.event_point) r.total_point) (.pyInt 0))
    quest_level := questOf r }

/-- Update of the `best_by_room` insertion-ordered dict for one record:
replace the entry of the same identity when the new score is strictly
greater, keep the old one otherwise, append a fresh identity at the end. -/
def upsertBest : List NRoom → NRoom → List NRoom
  | [], x => [x]
  | p :: rest, x =>
    if p.room_id = x.room_id then (if x.point > p.point then x else p) :: rest
    else p :: upsertBest rest x

/-- One step of the de-duplication loop (records with an empty identity are
skipped). -/
def dedupStep (m : List NRoom) (x : NRoom) : List NRoom :=
  if x.room_id = "" then m else upsertBest m x

/-- The de-duplication of `get_event_ranking`: `best_by_room` as an
insertion-ordered association list, read out in insertion order
(`list(best_by_room.values())`). -/
def bestByRoom (l : List NRoom) : List NRoom := l.foldl dedupStep []

/-- One comparison step of the winner of a duplicate group: a strictly
greater score replaces the current best, a tie keeps it. -/
def pickBest (o : Option NRoom) (x : NRoom) : Option NRoom :=
  match o with
  | none => some x
  | some c => some (if x.point > c.point then x else c)

/-- Fold keeping the first record with the strictly greatest score, seeded
with an optional current best. -/
def firstMaxAcc (b : Option NRoom) (g : List NRoom) : Option NRoom :=
  g.foldl pickBest b

/-- The first record of a group attaining the greatest score. -/
def firstMax (g : List NRoom) : Option NRoom := firstMaxAcc none g

/-- The rank-type test: at least one de-duplicated record carries a Python
`int` rank. -/
def isRankType (l : List NRoom) : Bool := l.any (fun x => x.rank.isIntRank)

/-- Model of `rank_sort_key`: integer ranks sort first by value, digit
strings are parsed, everything else goes last with key `(1, 999999)`. -/
def rankKey : NRank → Nat × Int
  | .nrInt n => (0, n)
  | .nrFloatInt _ => (1, 999999)
  | .nrStr s => if isDigits s.data then (0, (digitsVal s.data : Int)) else (1, 999999)

/-- Lexicographic order on sort keys. -/
def keyLe (p q : Nat × Int) : Bool := p.1 < q.1 || (p.1 == q.1 && p.2 ≤ q.2)

/-- Ascending comparison by `rank_sort_key`. -/
def rankLeRoom (a b : NRoom) : Bool := keyLe (rankKey a.rank) (rankKey b.rank)

/-- Descending comparison by score (`sort(key=point, reverse=True)`). -/
def pointGeRoom (a b : NRoom) : Bool := b.point ≤ a.point

/-- Insertion into a sorted list, before the first element that is not
strictly smaller: an element is placed before every tie that originally
came after it, which is exactly the stable placement. -/
def insertStable (le : α → α → Bool) (x : α) : List α → List α
  | [] => [x]
  | b :: t => if le x b then x :: b :: t else b :: insertStable le x t

/-- Stable insertion sort.  CPython's `list.sort` is a stable merge sort;
under a total transitive comparison the stable sorted permutation is
unique, so this models it exactly. -/
def stableSort (le : α → α → Bool) : List α → List α
  | [] => []
  | x :: t => insertStable le x (stableSort le t)

/-- The sort of `get_event_ranking`: by rank ascending for rank-type
listings, by score descending otherwise (a stable sort, as Python's). -/
def sortRooms (ded : List NRoom) : List NRoom :=
  if isRankType ded then stableSort rankLeRoom ded else stableSort pointGeRoom ded

/-- The `point_diff` field: the dash marker for the first record, an
integer difference for the others. -/
inductive PDiff where
  | dash
  | diff (n : Int)
deriving DecidableEq

/-- One record of the value returned by `get_event_ranking`. -/
structure RankOut where
  room_id : String
  room_name : PyVal
  rank : NRank
  point : Int
  point_diff : PDiff
  quest_level : PyVal
deriving DecidableEq

/-- Output record from a sorted record and its score difference. -/
def mkOut (r : NRoom) (d : PDiff) : RankOut :=
  { room_id := r.room_id, room_name := r.room_name, rank := r.rank,
    point := r.point, point_diff := d, quest_level := r.quest_level }

/-- Difference annotation for the records after the first one: each record
carries the score of its predecessor minus its own score. -/
def diffTail (prev : NRoom) : List NRoom → List RankOut
  | [] => []
  | x :: rest => mkOut x (.diff (prev.point - x.point)) :: diffTail x rest

/-- Difference annotation of the sorted listing: the first record carries
the dash marker. -/
def withDiffs : List NRoom → List RankOut
  | [] => []
  | x :: rest => mkOut x .dash :: diffTail x rest

/-- One page body of the listing endpoint, with the two keys
`get_event_ranking` probes. -/
structure PageBody where
  list : Option (List RawRoom) := none
  room_list : Option (List RawRoom) := none

/-- Python `o or alt` where `o` is a possibly missing list (an empty list
is falsy). -/
def orL (o : Option (List RawRoom)) (alt : List RawRoom) : List RawRoom :=
  match o with
  | some l => if l.isEmpty then alt else l
  | none => alt

/-- The rooms of one page: `data.get("list") or data.get("room_list") or []`. -/
def pageRooms (d : PageBody) : List RawRoom := orL d.list (orL d.room_list [])

/-- Outcome of one page request of `get_event_ranking`: a raised transport
exception, or a response with a status code and a body whose JSON parse may
itself raise (`Except.error`). -/
inductive PageFetch where
  | praise
  | presp (status : Nat) (json : Except Unit PageBody)

/-- The pagination loop of `get_event_ranking` (`for page in range(1, 6)`):
stops on a non-OK status keeping the accumulated rooms, stops after an
empty page or a short page, and propagates a raised exception
(`Except.error`) to the enclosing handler. -/
def fetchGo (f : Nat → PageFetch) : Nat → Nat → List RawRoom → Except Unit (List RawRoom)
  | 0, _, acc => .ok acc
  | fuel + 1, page, acc =>
    match f page with
    | .praise => .error ()
    | .presp status json =>
      if status ≠ 200 then .ok acc
      else
        match json with
        | .error _ => .error ()
        | .ok d =>
          if (pageRooms d).isEmpty then .ok acc
          else if (pageRooms d).length < 30 then .ok (acc ++ pageRooms d)
          else fetchGo f fuel (page + 1) (acc ++ pageRooms d)

/-- Pagination over the five allowed pages. -/
def fetchLoop (f : Nat → PageFetch) : Except Unit (List RawRoom) := fetchGo f 5 1 []

/-- De-duplicated records of a listing. -/
def dedupedOf (rooms : List RawRoom) : List NRoom := bestByRoom (rooms.map normalizeRoom)

/-- Normalization, de-duplication, sort, difference annotation and
truncation of `get_event_ranking` on the accumulated rooms. -/
def rankingCore (rooms : List RawRoom) (limit : Nat) : List RankOut :=
  (withDiffs (sortRooms (dedupedOf rooms))).take limit

/-- Model of `get_event_ranking` from `src/app.py`.  The page oracle `f`
stands for the HTTP requests; a raised exception anywhere inside the `try`
block lands in the catch-all handler, which returns the empty list. -/
def get_event_ranking (f : Nat → PageFetch) (limit : Nat) : List RankOut :=
  match fetchLoop f with
  | .error _ => []
  | .ok rooms =>
    if rooms.isEmpty then []
    else if (rooms.map normalizeRoom).isEmpty then []
    else rankingCore rooms limit

/-- JSON values, for the endpoints whose responses are probed generically. -/
inductive JVal where
  | jnull
  | jbool (b : Bool)
  | jnum (n : Int)
  | jstr (s : String)
  | jlist (l : List JVal)
  | jdict (kvs : List (String × JVal))

/-- Key lookup in a JSON object (first binding wins; CPython dicts hold one
binding per key). -/
def jlook (kvs : List (String × JVal)) (k : String) : Option JVal :=
  match kvs.find? (fun p => p.1 == k) with
  | some p => some p.2
  | none => none

/-- The candidate field names probed by `get_event_room_list_api`, in
source order. -/
def roomListKeys : List String :=
  ["list", "room_list", "event_entry_list", "entries", "data", "event_list"]

/-- The probing loop of `get_event_room_list_api`: return the value of the
first candidate key that is present and list-typed, fall through otherwise. -/
def pickListField : List String → List (String × JVal) → List JVal
  | [], _ => []
  | k :: ks, kvs =>
    match jlook kvs k with
    | some (.jlist l) => l
    | _ => pickListField ks kvs

/-- Model of `get_event_room_list_api` from `src/app.py` on the parsed
response (`Except.error` models a raised request or parse error, which the
function swallows into an empty list). -/
def get_event_room_list_api (resp : Except Unit JVal) : List JVal :=
  match resp with
  | .error _ => []
  | .ok (.jdict kvs) => pickListField roomListKeys kvs
  | .ok (.jlist l) => l
  | .ok _ => []

/-- Extractor written from the specification's words: check a fixed ordered
list of candidate field names and use the first one present whose value is
list-typed, returning an empty list if none matches. -/
def specFirstListField (kvs : List (String × JVal)) : List JVal :=
  (roomListKeys.findSome? fun k =>
    match jlook kvs k with
    | some (.jlist l) => some l
    | _ => none).getD []

/-- Outcome of the single request of `get_total_entries`: a raised
transport exception, or a status code with a body whose JSON parse may
raise. -/
inductive TotalFetch where
  | traise
  | tresp (status : Nat) (body : Except Unit JVal)

/-- Statuses on which `response.raise_for_status()` raises `HTTPError`. -/
def raiseForStatus (status : Nat) : Bool := 400 ≤ status && status < 600

/-- Model of `get_total_entries` from `src/app.py`: 404 means zero, a
raised `RequestException` or a JSON `ValueError` means `"N/A"`, otherwise
the `total_entries` field with default 0.  `Except.error` in the result
models an exception the function does not catch (`data.get` on a non-dict
body raises `AttributeError`). -/
def get_total_entries (r : TotalFetch) : Except Unit JVal :=
  match r with
  | .traise => .ok (.jstr "N/A")
  | .tresp status body =>
    if status == 404 then .ok (.jnum 0)
    else if raiseForStatus status then .ok (.jstr "N/A")
    else
      match body with
      | .error _ => .ok (.jstr "N/A")
      | .ok (.jdict kvs) => .ok ((jlook kvs "total_entries").getD (.jnum 0))
      | .ok _ => .error ()

/-- One raw record of the listing as used by `get_event_participants`. -/
structure PEntry where
  room_id : PyVal := .pyNone
  point : PyVal := .pyNone
  event_point : PyVal := .pyNone
  total_point : PyVal := .pyNone
  rank : PyVal := .pyNone
  position : PyVal := .pyNone
deriving DecidableEq

/-- A room-profile response body: the keys the code reads (`none` when
absent) and a flag for the presence of any further keys, which only feeds
dict truthiness. -/
structure Profile where
  room_name : Option PyVal := none
  room_level : Option PyVal := none
  show_rank_subdivided : Option PyVal := none
  follower_num : Option PyVal := none
  live_continuous_days : Option PyVal := none
  otherKeys : Bool := false
deriving DecidableEq

/-- Python truthiness of the profile dict. -/
def profTruthy (p : Profile) : Bool :=
  p.room_name.isSome || p.room_level.isSome || p.show_rank_subdivided.isSome ||
    p.follower_num.isSome || p.live_continuous_days.isSome || p.otherKeys

/-- One record returned by `get_event_participants`. -/
structure Participant where
  room_id : String
  room_name : PyVal
  room_level : Int
  show_rank_subdivided : PyVal
  follower_num : Int
  live_continuous_days : Int
  rank : PyVal
  point : Int
deriving DecidableEq

/-- The page-collection loop of `get_event_participants` (thread completion
order abstracted as page order, which no claim depends on): pages are
consumed until an empty page, de-duplicating by `str(room_id)` and keeping
nonempty identities only, up to the hard ceiling of 30 pages. -/
def collectEntries (pg : Nat → List PEntry) : Nat → Nat → List String → List PEntry → List PEntry
  | 0, _, _, acc => acc
  | fuel + 1, page, seen, acc =>
    if (pg page).isEmpty then acc
    else
      let sa := (pg page).foldl
        (fun (sa : List String × List PEntry) e =>
          let rid := pyStrOf e.room_id
          if rid != "" && !sa.1.contains rid then (rid :: sa.1, sa.2 ++ [e]) else sa)
        (seen, acc)
      collectEntries pg fuel (page + 1) sa.1 sa.2

/-- Accumulated listing entries over the 30 pages. -/
def fetch_phase (pg : Nat → List PEntry) : List PEntry := collectEntries pg 30 1 [] []

/-- One enriched participant from a truthy profile dict; `none` models the
`continue` paths: a falsy profile, or an `int()` conversion that raises. -/
def mkParticipant? (rid : PyVal) (p : Profile) : Option Participant :=
  if !profTruthy p then none
  else
    match pyIntConv? (p.room_level.getD (.pyInt 0)),
        pyIntConv? (p.follower_num.getD (.pyInt 0)),
        pyIntConv? (p.live_continuous_days.getD (.pyInt 0)) with
    | some lvl, some fol, some days =>
      some { room_id := pyStrOf rid,
             room_name := pyOr (p.room_name.getD .pyNone) (.pyStr ("room_" ++ pyStrOf rid)),
             room_level := lvl,
             show_rank_subdivided := pyOr (p.show_rank_subdivided.getD .pyNone) (.pyStr ""),
             follower_num := fol,
             live_continuous_days := days,
             rank := .pyStr "-",
             point := 0 }
    | _, _, _ => none

/-- The profile-enrichment fan-out: one lookup per candidate identity, a
failed or falsy lookup contributes nothing (`prof` returning `none` models
`fetch_profile` yielding `{}` on any failure).  The two placeholder fields
`rank` and `point` are overwritten by the join below before any record is
returned. -/
def participantsOf (roomIds : List PyVal) (prof : PyVal → Option Profile) : List Participant :=
  roomIds.filterMap fun rid => (prof rid).bind fun p => mkParticipant? rid p

/-- The SHOW-rank table of `get_event_participants`, best first. -/
def rankOrderTable : List String :=
  ["SS-5", "SS-4", "SS-3", "SS-2", "SS-1",
   "S-5", "S-4", "S-3", "S-2", "S-1",
   "A-5", "A-4", "A-3", "A-2", "A-1",
   "B-5", "B-4", "B-3", "B-2", "B-1",
   "C-10", "C-9", "C-8", "C-7", "C-6", "C-5", "C-4", "C-3", "C-2", "C-1"]

/-- The `rank_score` lookup with default 0 (non-string values are never
keys of the table). -/
def rankScoreOf (v : PyVal) : Nat :=
  match v with
  | .pyStr s =>
    match rankOrderTable.indexOf? s with
    | some i => rankOrderTable.length - i
    | none => 0
  | _ => 0

/-- The participant sort key (SHOW rank, then room level, then followers). -/
def partKey (x : Participant) : Nat × Int × Int :=
  (rankScoreOf x.show_rank_subdivided, x.room_level, x.follower_num)

/-- Descending lexicographic comparison of participant keys
(`sorted(..., reverse=True)`). -/
def tripleGe (p q : Nat × Int × Int) : Bool :=
  q.1 < p.1 || (q.1 == p.1 && (q.2.1 < p.2.1 || (q.2.1 == p.2.1 && q.2.2 ≤ p.2.2)))

/-- Descending comparison of participants. -/
def partGe (a b : Participant) : Bool := tripleGe (partKey a) (partKey b)

/-- A value of the `rank_map` join table. -/
structure RankPoint where
  rank : PyVal
  point : Int
deriving DecidableEq

/-- Insert-or-overwrite into the association list modelling `rank_map`. -/
def upsertAssoc (m : List (String × RankPoint)) (k : String) (v : RankPoint) :
    List (String × RankPoint) :=
  match m with
  | [] => [(k, v)]
  | p :: rest => if p.1 = k then (k, v) :: rest else p :: upsertAssoc rest k v

/-- One step of the `rank_map` construction: skip empty identities, parse
the score with default 0 (no float fallback here), default the rank to
`"-"`. -/
def rankMapInsert (m : List (String × RankPoint)) (e : PEntry) : List (String × RankPoint) :=
  if pyStrOf e.room_id = "" then m
  else
    upsertAssoc m (pyStrOf e.room_id)
      ⟨pyOr (pyOr e.rank e.position) (.pyStr "-"),
       (pyIntConv? (pyOr (pyOr (pyOr e.point e.event_point) e.total_point) (.pyInt 0))).getD 0⟩

/-- The `rank_map` of `get_event_participants`. -/
def buildRankMap (entries : List PEntry) : List (String × RankPoint) :=
  entries.foldl rankMapInsert []

/-- Lookup in the `rank_map`. -/
def lookAssoc (m : List (String × RankPoint)) (k : String) : Option RankPoint :=
  match m.find? (fun p => p.1 == k) with
  | some p => some p.2
  | none => none

/-- The rank/score join of phase five: the looked-up values, with the
defaults `"-"` and 0 for an identity missing from the map. -/
def joinRank (m : List (String × RankPoint)) (p : Participant) : Participant :=
  match lookAssoc m p.room_id with
  | some rp => { p with rank := rp.rank, point := rp.point }
  | none => { p with rank := .pyStr "-", point := 0 }

/-- The event argument of `get_event_participants` (only the key it reads). -/
structure EventObj where
  event_id : PyVal := .pyNone
deriving DecidableEq

/-- The candidate identities for profile enrichment: the raw `room_id`
values of the accumulated entries, truthy ones only. -/
def roomIdsOf (pg : Nat → List PEntry) : List PyVal :=
  (fetch_phase pg).filterMap fun e => if pyTruthy e.room_id then some e.room_id else none

/-- Model of `get_event_participants` from `src/app.py`, returning the
participant list together with the number of HTTP requests issued (all 30
page futures are submitted up front, plus one profile request per candidate
identity).  The page oracle `pg` models `fetch_room_list_page`, which
already swallows its own failures into an empty page. -/
def get_event_participants (ev : EventObj) (pg : Nat → List PEntry)
    (prof : PyVal → Option Profile) (limit : Nat) : List Participant × Nat :=
  if !pyTruthy ev.event_id then ([], 0)
  else if (fetch_phase pg).isEmpty then ([], 30)
  else if (stableSort partGe (participantsOf (roomIdsOf pg) prof)).isEmpty then
    ([], 30 + (roomIdsOf pg).length)
  else
    (((stableSort partGe (participantsOf (roomIdsOf pg) prof)).take limit).map
        (joinRank (buildRankMap (fetch_phase pg))),
      30 + (roomIdsOf pg).length)

/-- Page `j` of the oracle answers OK with body `dpage j` holding a full
page of 30 rooms (the continue condition of the pagination loop). -/
def fullOkPage (f : Nat → PageFetch) (dpage : Nat → PageBody) (j : Nat) : Prop :=
  f j = .presp 200 (.ok (dpage j)) ∧ (pageRooms (dpage j)).length = 30

/-- Concatenation of the rooms of `m` consecutive pages starting at `page`. -/
def concatPages (dpage : Nat → PageBody) : Nat → Nat → List RawRoom
  | _, 0 => []
  | page, m + 1 => pageRooms (dpage page) ++ concatPages dpage (page + 1) m

/-! Concrete inputs used by the counterexamples and witnesses. -/

/-- A listing record with rank 2 and score 100. -/
def cex2RoomA : RawRoom := { room_id := .pyStr "A", rank := .pyInt 2, point := .pyInt 100 }

/-- A listing record with rank 1 and score 50. -/
def cex2RoomB : RawRoom := { room_id := .pyStr "B", rank := .pyInt 1, point := .pyInt 50 }

/-- A one-page listing whose rank order disagrees with its score order. -/
def cex2F : Nat → PageFetch := fun p =>
  if p = 1 then .presp 200 (.ok { list := some [cex2RoomA, cex2RoomB] })
  else .presp 404 (.ok {})

/-- A full page of 30 rooms. -/
def bigPage : PageBody := { list := some (List.replicate 30 cex2RoomA) }

/-- An oracle whose first page is full and whose second request raises. -/
def cex5F : Nat → PageFetch := fun p =>
  if p = 1 then .presp 200 (.ok bigPage) else .praise

/-- An oracle whose first page is full and whose second request returns a
not-found status. -/
def cex5G : Nat → PageFetch := fun p =>
  if p = 1 then .presp 200 (.ok bigPage) else .presp 404 (.ok {})

/-- The page bodies behind `cex5F` and `cex5G`. -/
def cex5D : Nat → PageBody := fun _ => bigPage

/-- A listing entry with identity 1. -/
def cex4E1 : PEntry := { room_id := .pyStr "1", point := .pyInt 5, rank := .pyInt 1 }

/-- A listing entry with identity 2. -/
def cex4E2 : PEntry := { room_id := .pyStr "2", point := .pyInt 3, rank := .pyInt 2 }

/-- A one-page participant listing with the two entries above. -/
def cex4Pg : Nat → List PEntry := fun p => if p = 1 then [cex4E1, cex4E2] else []

/-- A complete profile for identity 1. -/
def cex4Profile1 : Profile :=
  { room_name := some (.pyStr "alpha"), room_level := some (.pyInt 7),
    show_rank_subdivided := some (.pyStr "A-1"), follower_num := some (.pyInt 100),
    live_continuous_days := some (.pyInt 3) }

/-- A profile oracle that succeeds for identity 1 and fails (returns the
empty falsy dict) for every other identity. -/
def cex4Prof : PyVal → Option Profile := fun v =>
  if v = .pyStr "1" then some cex4Profile1 else none

/-- An event object with a nonempty identifier. -/
def cex4Ev : EventObj := { event_id := .pyStr "e" }

/-- Two distinct normalized records sharing the identity 55 with scores 10
and 20, then a tie record arriving later. -/
def w1L : List NRoom :=
  [{ room_id := "55", room_name := .pyStr "x", rank := .nrStr "-", point := 10,
     quest_level := .pyStr "" },
   { room_id := "55", room_name := .pyStr "y", rank := .nrStr "-", point := 20,
     quest_level := .pyStr "" },
   { room_id := "55", room_name := .pyStr "z", rank := .nrStr "-", point := 20,
     quest_level := .pyStr "" }]

/-- The one fully enriched participant of the concrete C4 scenario. -/
def w4P : Participant :=
  { room_id := "1", room_name := .pyStr "alpha", room_level := 7,
    show_rank_subdivided := .pyStr "A-1", follower_num := 100,
    live_continuous_days := 3, rank := .pyInt 1, point := 5 }

/-- A listing record with a score and no rank (level-type listing). -/
def w2Room : RawRoom := { room_id := .pyStr "L", point := .pyInt 7 }

/-- A one-page level-type listing. -/
def w2F : Nat → PageFetch := fun p =>
  if p = 1 then .presp 200 (.ok { list := some [w2Room] }) else .presp 404 (.ok {})

/-! Lemmas about digits, decimal printing and stripping, used for the
normalization claim. -/

theorem digitCh_isDigit {d : Nat} (h : d < 10) : isDigitCh (digitCh d) = true := by
  interval_cases d <;> decide

theorem digitVal_digitCh {d : Nat} (h : d < 10) : digitVal (digitCh d) = d := by
  interval_cases d <;> decide

theorem isSpaceCh_eq_false_of_digit {c : Char} (h : isDigitCh c = true) : isSpaceCh c = false := by
  simp only [isDigitCh, Bool.and_eq_true, decide_eq_true_eq] at h
  simp only [isSpaceCh, Bool.or_eq_false_iff, beq_eq_false_iff_ne, ne_eq]
  omega

theorem digitsVal_append (l : List Char) (c : Char) :
    digitsVal (l ++ [c]) = digitsVal l * 10 + digitVal c := by
  simp [digitsVal, List.foldl_append]

theorem natReprAux_ne_nil : ∀ {fuel n : Nat}, n < fuel → natReprAux fuel n ≠ [] := by
  intro fuel n h
  cases fuel with
  | zero => omega
  | succ fuel =>
    unfold natReprAux
    by_cases h10 : n < 10 <;> simp [h10]

theorem natReprAux_digits :
    ∀ fuel n, n < fuel → ∀ c ∈ natReprAux fuel n, isDigitCh c = true := by
  intro fuel
  induction fuel with
  | zero => intro n h; omega
  | succ fuel ih =>
    intro n h c hc
    unfold natReprAux at hc
    by_cases h10 : n < 10
    · simp only [h10, if_true, List.mem_singleton] at hc
      subst hc; exact digitCh_isDigit h10
    · simp only [h10, if_false, List.mem_append, List.mem_singleton] at hc
      rcases hc with hc | hc
      · exact ih (n / 10)
          (by have : n / 10 < n := Nat.div_lt_self (by omega) (by omega); omega) c hc
      · subst hc; exact digitCh_isDigit (Nat.mod_lt _ (by omega))

theorem digitsVal_natReprAux : ∀ fuel n, n < fuel → digitsVal (natReprAux fuel n) = n := by
  intro fuel
  induction fuel with
  | zero => intro n h; omega
  | succ fuel ih =>
    intro n h
    unfold natReprAux
    by_cases h10 : n < 10
    · simp only [h10, if_true]
      simp [digitsVal, digitVal_digitCh h10]
    · have hd : n / 10 < fuel := by
        have : n / 10 < n := Nat.div_lt_self (by omega) (by omega); omega
      rw [if_neg h10, digitsVal_append, ih (n / 10) hd,
        digitVal_digitCh (Nat.mod_lt _ (by omega))]
      omega

theorem natDecRepr_digits {n : Nat} : ∀ c ∈ (natDecRepr n).data, isDigitCh c = true :=
  natReprAux_digits (n + 1) n (by omega)

theorem natDecRepr_ne_nil {n : Nat} : (natDecRepr n).data ≠ [] :=
  natReprAux_ne_nil (by omega)

theorem digitsVal_natDecRepr {n : Nat} : digitsVal (natDecRepr n).data = n :=
  digitsVal_natReprAux (n + 1) n (by omega)

theorem dropWhile_all_false {α} (p : α → Bool) :
    ∀ l : List α, (∀ c ∈ l, p c = false) → l.dropWhile p = l
  | [], _ => rfl
  | a :: t, h => by
    rw [List.dropWhile_cons, h a (List.mem_cons_self a t)]
    simp

theorem rdropWhile_all_false {α} (p : α → Bool) (l : List α)
    (h : ∀ c ∈ l, p c = false) : List.rdropWhile p l = l := by
  rw [List.rdropWhile, dropWhile_all_false _ _ (fun c hc => h c (List.mem_reverse.mp hc)),
    List.reverse_reverse]

theorem takeWhile_all_true {α} (p : α → Bool) :
    ∀ l : List α, (∀ c ∈ l, p c = true) → l.takeWhile p = l
  | [], _ => rfl
  | a :: t, h => by
    rw [List.takeWhile_cons, h a (List.mem_cons_self a t)]
    simp only [if_true]
    rw [takeWhile_all_true p t (fun c hc => h c (List.mem_cons_of_mem a hc))]

theorem dropWhile_all_true {α} (p : α → Bool) :
    ∀ l : List α, (∀ c ∈ l, p c = true) → l.dropWhile p = []
  | [], _ => rfl
  | a :: t, h => by
    rw [List.dropWhile_cons, h a (List.mem_cons_self a t)]
    simp only [if_true]
    exact dropWhile_all_true p t (fun c hc => h c (List.mem_cons_of_mem a hc))

theorem pyStrip_id_of_no_space {s : String} (h : ∀ c ∈ s.data, isSpaceCh c = false) :
    pyStrip s = s := by
  cases s with
  | mk d =>
    show String.mk (List.rdropWhile isSpaceCh (d.dropWhile isSpaceCh)) = String.mk d
    rw [dropWhile_all_false _ _ h, rdropWhile_all_false _ _ h]

theorem dropWhile_headD_false {α} (p : α → Bool) (d : α) :
    ∀ l : List α, l.dropWhile p ≠ [] → p ((l.dropWhile p).headD d) = false
  | [], h => absurd rfl h
  | a :: t, h => by
    by_cases hp : p a
    · rw [List.dropWhile_cons, if_pos hp] at h ⊢
      exact dropWhile_headD_false p d t h
    · rw [List.dropWhile_cons, if_neg hp] at h ⊢
      simpa using Bool.eq_false_iff.mpr hp

theorem dropWhile_eq_self_of_headD {α} (p : α → Bool) (d : α) :
    ∀ l : List α, (l ≠ [] → p (l.headD d) = false) → l.dropWhile p = l
  | [], _ => rfl
  | a :: t, h => by
    have ha : p a = false := h (by simp)
    rw [List.dropWhile_cons, ha]
    simp

theorem headD_append_of_ne_nil {α} (d : α) :
    ∀ (xs : List α) (ys : List α), xs ≠ [] → (xs ++ ys).headD d = xs.headD d
  | [], _, h => absurd rfl h
  | _ :: _, _, _ => rfl

theorem rdropWhile_headD {α} (p : α → Bool) (d : α) (l : List α) :
    List.rdropWhile p l ≠ [] → (List.rdropWhile p l).headD d = l.headD d := by
  induction l using List.reverseRecOn with
  | nil => intro h; simp [List.rdropWhile_nil] at h
  | append_singleton xs x ih =>
    intro h
    rw [List.rdropWhile_concat] at h ⊢
    by_cases hp : p x
    · rw [if_pos hp] at h ⊢
      have hxs : xs ≠ [] := by
        intro h0; subst h0; simp [List.rdropWhile_nil] at h
      rw [ih h, headD_append_of_ne_nil d xs [x] hxs]
    · rw [if_neg hp]

theorem pyStrip_pyStrip (s : String) : pyStrip (pyStrip s) = pyStrip s := by
  show String.mk
      (List.rdropWhile isSpaceCh
        ((List.rdropWhile isSpaceCh (s.data.dropWhile isSpaceCh)).dropWhile isSpaceCh)) =
    String.mk (List.rdropWhile isSpaceCh (s.data.dropWhile isSpaceCh))
  have hdw :
      (List.rdropWhile isSpaceCh (s.data.dropWhile isSpaceCh)).dropWhile isSpaceCh =
        List.rdropWhile isSpaceCh (s.data.dropWhile isSpaceCh) := by
    apply dropWhile_eq_self_of_headD isSpaceCh (digitCh 0)
    intro hne
    rw [rdropWhile_headD _ _ _ hne]
    have hl1 : s.data.dropWhile isSpaceCh ≠ [] := by
      intro h0
      rw [h0, List.rdropWhile_nil] at hne
      exact hne rfl
    exact dropWhile_headD_false isSpaceCh (digitCh 0) s.data hl1
  rw [hdw, List.rdropWhile_idempotent]

theorem matchesIntegralRe_digits {l : List Char} (hne : l ≠ [])
    (h : ∀ c ∈ l, isDigitCh c = true) : matchesIntegralRe l = true := by
  simp only [matchesIntegralRe, takeWhile_all_true _ _ h, dropWhile_all_true _ _ h]
  simp [hne]

theorem integralValue_digits {l : List Char} (h : ∀ c ∈ l, isDigitCh c = true) :
    integralValue l = digitsVal l := by
  unfold integralValue
  rw [takeWhile_all_true _ _ h]

theorem norm_natDecRepr (m : Nat) :
    normalize_event_id_val (.pyStr (natDecRepr m)) = some (natDecRepr m) := by
  have hs : pyStrip (natDecRepr m) = natDecRepr m :=
    pyStrip_id_of_no_space (fun c hc => isSpaceCh_eq_false_of_digit (natDecRepr_digits c hc))
  show (if matchesIntegralRe (pyStrip (natDecRepr m)).data then
      some (natDecRepr (integralValue (pyStrip (natDecRepr m)).data))
    else if pyStrip (natDecRepr m) = "" then none else some (pyStrip (natDecRepr m))) =
    some (natDecRepr m)
  rw [hs, if_pos (matchesIntegralRe_digits natDecRepr_ne_nil natDecRepr_digits),
    integralValue_digits natDecRepr_digits, digitsVal_natDecRepr]

theorem norm_dash (m : Nat) :
    normalize_event_id_val (.pyStr ("-" ++ natDecRepr m)) = some ("-" ++ natDecRepr m) := by
  have hdata : ("-" ++ natDecRepr m).data = (Char.ofNat 45) :: (natDecRepr m).data := by
    rw [String.data_append]
    rfl
  have hall : ∀ c ∈ ("-" ++ natDecRepr m).data, isSpaceCh c = false := by
    intro c hc
    rw [hdata] at hc
    rcases List.mem_cons.mp hc with hc | hc
    · subst hc; decide
    · exact isSpaceCh_eq_false_of_digit (natDecRepr_digits c hc)
  have hs : pyStrip ("-" ++ natDecRepr m) = "-" ++ natDecRepr m := pyStrip_id_of_no_space hall
  have hre : matchesIntegralRe (("-" ++ natDecRepr m)).data = false := by
    rw [hdata]
    have hd45 : isDigitCh (Char.ofNat 45) = false := by decide
    simp [matchesIntegralRe, List.takeWhile_cons, List.dropWhile_cons, hd45]
  have hne : ("-" ++ natDecRepr m) ≠ "" := by
    intro h0
    have : ("-" ++ natDecRepr m).data = [] := by rw [h0]
    rw [hdata] at this
    exact List.cons_ne_nil _ _ this
  show (if matchesIntegralRe (pyStrip ("-" ++ natDecRepr m)).data then
      some (natDecRepr (integralValue (pyStrip ("-" ++ natDecRepr m)).data))
    else if pyStrip ("-" ++ natDecRepr m) = "" then none
    else some (pyStrip ("-" ++ natDecRepr m))) = some ("-" ++ natDecRepr m)
  rw [hs, if_neg (by rw [hre]; exact Bool.false_ne_true), if_neg hne]

theorem intRepr_cases (n : Int) :
    intRepr n = natDecRepr n.natAbs ∨ intRepr n = "-" ++ natDecRepr n.natAbs := by
  unfold intRepr
  by_cases h : n < 0
  · right; rw [if_pos h]
  · left; rw [if_neg h]

theorem norm_intRepr (n : Int) :
    normalize_event_id_val (.pyStr (intRepr n)) = some (intRepr n) := by
  rcases intRepr_cases n with h | h <;> rw [h]
  · exact norm_natDecRepr _
  · exact norm_dash _

theorem norm_norm (x : PyVal) :
    normalize_event_id_val (liftNorm (normalize_event_id_val x)) = normalize_event_id_val x := by
  cases x with
  | pyNone => rfl
  | pyInt n => exact norm_intRepr n
  | pyFloatInt n => exact norm_intRepr n
  | pyStr s =>
    show normalize_event_id_val (liftNorm
        (if matchesIntegralRe (pyStrip s).data then
          some (natDecRepr (integralValue (pyStrip s).data))
        else if pyStrip s = "" then none else some (pyStrip s))) =
      (if matchesIntegralRe (pyStrip s).data then
          some (natDecRepr (integralValue (pyStrip s).data))
        else if pyStrip s = "" then none else some (pyStrip s))
    by_cases hre : matchesIntegralRe (pyStrip s).data
    · rw [if_pos hre]
      exact norm_natDecRepr _
    · rw [if_neg hre]
      by_cases hemp : pyStrip s = ""
      · rw [if_pos hemp]
        rfl
      · rw [if_neg hemp]
        show (if matchesIntegralRe (pyStrip (pyStrip s)).data then
            some (natDecRepr (integralValue (pyStrip (pyStrip s)).data))
          else if pyStrip (pyStrip s) = "" then none else some (pyStrip (pyStrip s))) =
          some (pyStrip s)
        rw [pyStrip_pyStrip, if_neg hre, if_neg hemp]

/-- C3: identifier normalization is idempotent
(`normalize(normalize(x)) == normalize(x)` over the modelled value domain);
the inputs `"123"`, `123` and `"123.0"` all normalize to the string
`"123"`; `None` and the empty string normalize to the invalid sentinel. -/
theorem claim_C3_normalization_idempotent :
    (∀ x : PyVal,
      normalize_event_id_val (liftNorm (normalize_event_id_val x)) =
        normalize_event_id_val x) ∧
    normalize_event_id_val (.pyStr "123") = some "123" ∧
    normalize_event_id_val (.pyInt 123) = some "123" ∧
    normalize_event_id_val (.pyStr "123.0") = some "123" ∧
    normalize_event_id_val .pyNone = none ∧
    normalize_event_id_val (.pyStr "") = none :=
  ⟨norm_norm, by decide, by decide, by decide, rfl, by decide⟩

/-! Lemmas about the stable sort. -/

theorem insertStable_perm {α} (le : α → α → Bool) (x : α) :
    ∀ l : List α, (insertStable le x l).Perm (x :: l)
  | [] => List.Perm.refl _
  | b :: t => by
    unfold insertStable
    by_cases h : le x b
    · rw [if_pos h]
    · rw [if_neg h]
      exact ((insertStable_perm le x t).cons b).trans (List.Perm.swap x b t)

theorem stableSort_perm {α} (le : α → α → Bool) : ∀ l : List α, (stableSort le l).Perm l
  | [] => List.Perm.refl _
  | x :: t => (insertStable_perm le x (stableSort le t)).trans ((stableSort_perm le t).cons x)

theorem mem_insertStable {α} {le : α → α → Bool} {x y : α} {l : List α}
    (h : y ∈ insertStable le x l) : y = x ∨ y ∈ l := by
  have := (insertStable_perm le x l).mem_iff.mp h
  simpa using this

theorem insertStable_pairwise {α} {le : α → α → Bool}
    (total : ∀ a b, (le a b || le b a) = true)
    (htrans : ∀ a b c, le a b = true → le b c = true → le a c = true) (x : α) :
    ∀ {l : List α}, l.Pairwise (fun a b => le a b = true) →
      (insertStable le x l).Pairwise (fun a b => le a b = true) := by
  intro l
  induction l with
  | nil =>
    intro _
    simp [insertStable]
  | cons b t ih =>
    intro h
    rcases List.pairwise_cons.mp h with ⟨hb, ht⟩
    unfold insertStable
    by_cases hxb : le x b = true
    · rw [if_pos hxb]
      refine List.pairwise_cons.mpr ⟨?_, h⟩
      intro y hy
      rcases List.mem_cons.mp hy with hy | hy
      · subst hy; exact hxb
      · exact htrans x b y hxb (hb y hy)
    · rw [if_neg hxb]
      refine List.pairwise_cons.mpr ⟨?_, ih ht⟩
      intro y hy
      rcases mem_insertStable hy with hy | hy
      · rw [hy]
        rcases Bool.or_eq_true_iff.mp (total x b) with h1 | h1
        · exact absurd h1 hxb
        · exact h1
      · exact hb y hy

theorem stableSort_pairwise {α} {le : α → α → Bool}
    (total : ∀ a b, (le a b || le b a) = true)
    (htrans : ∀ a b c, le a b = true → le b c = true → le a c = true) :
    ∀ l : List α, (stableSort le l).Pairwise (fun a b => le a b = true)
  | [] => List.Pairwise.nil
  | x :: t => insertStable_pairwise total htrans x (stableSort_pairwise total htrans t)

theorem keyLe_total (p q : Nat × Int) : (keyLe p q || keyLe q p) = true := by
  simp only [keyLe, Bool.or_eq_true, Bool.and_eq_true, decide_eq_true_eq, beq_iff_eq]
  omega

theorem keyLe_trans (p q r : Nat × Int) (h1 : keyLe p q = true) (h2 : keyLe q r = true) :
    keyLe p r = true := by
  simp only [keyLe, Bool.or_eq_true, Bool.and_eq_true, decide_eq_true_eq, beq_iff_eq] at h1 h2 ⊢
  omega

theorem rankLeRoom_total (a b : NRoom) : (rankLeRoom a b || rankLeRoom b a) = true :=
  keyLe_total _ _

theorem rankLeRoom_trans (a b c : NRoom) (h1 : rankLeRoom a b = true)
    (h2 : rankLeRoom b c = true) : rankLeRoom a c = true :=
  keyLe_trans _ _ _ h1 h2

theorem pointGeRoom_total (a b : NRoom) : (pointGeRoom a b || pointGeRoom b a) = true := by
  simp only [pointGeRoom, Bool.or_eq_true, decide_eq_true_eq]
  omega

theorem pointGeRoom_trans (a b c : NRoom) (h1 : pointGeRoom a b = true)
    (h2 : pointGeRoom b c = true) : pointGeRoom a c = true := by
  simp only [pointGeRoom, decide_eq_true_eq] at h1 h2 ⊢
  omega

theorem sortRooms_perm (ded : List NRoom) : (sortRooms ded).Perm ded := by
  unfold sortRooms
  by_cases h : isRankType ded <;> simp [h, stableSort_perm]

/-! Lemmas about the de-duplication. -/

theorem find?_cons_pos {α} (p : α → Bool) (a : α) (l : List α) (h : p a = true) :
    (a :: l).find? p = some a := by
  simp [List.find?_cons, h]

theorem find?_cons_neg {α} (p : α → Bool) (a : α) (l : List α) (h : p a = false) :
    (a :: l).find? p = l.find? p := by
  simp [List.find?_cons, h]

theorem find?_upsertBest (x : NRoom) (rid : String) :
    ∀ m : List NRoom,
      (upsertBest m x).find? (fun p => p.room_id == rid) =
        if (x.room_id == rid) = true then pickBest (m.find? (fun p => p.room_id == rid)) x
        else m.find? (fun p => p.room_id == rid) := by
  intro m
  induction m with
  | nil =>
    by_cases hx : (x.room_id == rid) = true
    · rw [if_pos hx]
      show List.find? _ [x] = _
      rw [find?_cons_pos (fun p => p.room_id == rid) x [] hx]
      rfl
    · rw [if_neg hx]
      show List.find? _ [x] = _
      rw [find?_cons_neg (fun p => p.room_id == rid) x [] (by simpa using hx)]
  | cons p rest ih =>
    by_cases hpr : p.room_id = x.room_id
    · have hu : upsertBest (p :: rest) x = (if x.point > p.point then x else p) :: rest := by
        simp only [upsertBest]
        rw [if_pos hpr]
      have hhead_id : (if x.point > p.point then x else p).room_id = p.room_id := by
        by_cases hg : x.point > p.point <;> simp [hg, hpr]
      rw [hu]
      by_cases hx : (x.room_id == rid) = true
      · have hp : (p.room_id == rid) = true := by rw [hpr]; exact hx
        rw [find?_cons_pos (fun p => p.room_id == rid) _ rest
            (by show ((if x.point > p.point then x else p).room_id == rid) = true
                rw [hhead_id]; exact hp),
          if_pos hx, find?_cons_pos (fun p => p.room_id == rid) p rest hp]
        rfl
      · have hp : (p.room_id == rid) = false := by rw [hpr]; simpa using hx
        rw [find?_cons_neg (fun p => p.room_id == rid) _ rest
            (by show ((if x.point > p.point then x else p).room_id == rid) = false
                rw [hhead_id]; exact hp),
          if_neg hx, find?_cons_neg (fun p => p.room_id == rid) p rest hp]
    · have hu : upsertBest (p :: rest) x = p :: upsertBest rest x := by
        simp only [upsertBest]
        rw [if_neg hpr]
      rw [hu]
      by_cases hp : (p.room_id == rid) = true
      · have hx : ¬(x.room_id == rid) = true := by
          intro hc
          exact hpr ((beq_iff_eq.mp hp).trans (beq_iff_eq.mp hc).symm)
        rw [find?_cons_pos (fun p => p.room_id == rid) p (upsertBest rest x) hp, if_neg hx,
          find?_cons_pos (fun p => p.room_id == rid) p rest hp]
      · have hp' : (p.room_id == rid) = false := by simpa using hp
        rw [find?_cons_neg (fun p => p.room_id == rid) p (upsertBest rest x) hp', ih,
          find?_cons_neg (fun p => p.room_id == rid) p rest hp']

theorem find?_dedupFold (rid : String) (hrid : rid ≠ "") :
    ∀ (l : List NRoom) (acc : List NRoom),
      ((l.foldl dedupStep acc).find? (fun p => p.room_id == rid)) =
        firstMaxAcc (acc.find? (fun p => p.room_id == rid))
          (l.filter (fun r => r.room_id == rid)) := by
  intro l
  induction l with
  | nil => intro acc; rfl
  | cons r t ih =>
    intro acc
    rw [List.foldl_cons, List.filter_cons]
    by_cases hr0 : r.room_id = ""
    · have hne : (r.room_id == rid) = false := by
        apply Bool.eq_false_iff.mpr
        intro hc
        exact hrid ((beq_iff_eq.mp hc) ▸ hr0 ▸ rfl)
      rw [if_neg (by simp [hne]), show dedupStep acc r = acc from if_pos hr0]
      exact ih acc
    · rw [show dedupStep acc r = upsertBest acc r from if_neg hr0]
      by_cases hrr : r.room_id == rid
      · rw [if_pos (by simp [hrr])]
        rw [ih (upsertBest acc r), find?_upsertBest r rid acc, if_pos hrr]
        rfl
      · rw [if_neg (by simp [hrr])]
        rw [ih (upsertBest acc r), find?_upsertBest r rid acc, if_neg (by simp [hrr])]

theorem find?_bestByRoom (l : List NRoom) (rid : String) (hrid : rid ≠ "") :
    (bestByRoom l).find? (fun p => p.room_id == rid) =
      firstMax (l.filter (fun r => r.room_id == rid)) :=
  find?_dedupFold rid hrid l []

theorem firstMaxAcc_props :
    ∀ (g : List NRoom) (b m : NRoom), firstMaxAcc (some b) g = some m →
      (b.point ≤ m.point ∧ ∀ x ∈ g, x.point ≤ m.point) ∧
        (b :: g).find? (fun x => decide (m.point ≤ x.point)) = some m := by
  intro g
  induction g with
  | nil =>
    intro b m h
    have hb : b = m := by simpa [firstMaxAcc] using h
    subst hb
    exact ⟨⟨le_refl _, by simp⟩,
      find?_cons_pos (fun x => decide (b.point ≤ x.point)) b [] (by simp)⟩
  | cons x t ih =>
    intro b m h
    have hstep : firstMaxAcc (some (if x.point > b.point then x else b)) t = some m := by
      simpa [firstMaxAcc, pickBest] using h
    rcases ih _ m hstep with ⟨⟨hb', ht⟩, hfind⟩
    by_cases hgt : x.point > b.point
    · rw [if_pos hgt] at hb' hfind
      have hbm : b.point ≤ m.point := le_of_lt (lt_of_lt_of_le hgt hb')
      refine ⟨⟨hbm, ?_⟩, ?_⟩
      · intro y hy
        rcases List.mem_cons.mp hy with hy | hy
        · subst hy; exact hb'
        · exact ht y hy
      · rw [find?_cons_neg (fun x => decide (m.point ≤ x.point)) b (x :: t) ?_]
        · exact hfind
        · simp only [decide_eq_false_iff_not, not_le]
          omega
    · rw [if_neg hgt] at hb' hfind
      push_neg at hgt
      refine ⟨⟨hb', ?_⟩, ?_⟩
      · intro y hy
        rcases List.mem_cons.mp hy with hy | hy
        · subst hy; exact le_trans hgt hb'
        · exact ht y hy
      · by_cases hmb : m.point ≤ b.point
        · have hfb : List.find? (fun x => decide (m.point ≤ x.point)) (b :: t) = some b :=
            find?_cons_pos (fun x => decide (m.point ≤ x.point)) b t (by simpa using hmb)
          have hm : b = m := Option.some.inj (hfb.symm.trans hfind)
          rw [find?_cons_pos (fun x => decide (m.point ≤ x.point)) b (x :: t)
            (by simpa using hmb), hm]
        · rw [find?_cons_neg (fun x => decide (m.point ≤ x.point)) b t
            (by simpa using hmb)] at hfind
          rw [find?_cons_neg (fun x => decide (m.point ≤ x.point)) b (x :: t)
            (by simpa using hmb),
            find?_cons_neg (fun x => decide (m.point ≤ x.point)) x t ?_]
          · exact hfind
          · simp only [decide_eq_false_iff_not, not_le]
            omega

theorem firstMax_props (g : List NRoom) (m : NRoom) (h : firstMax g = some m) :
    m ∈ g ∧ (∀ x ∈ g, x.point ≤ m.point) ∧
      g.find? (fun x => decide (m.point ≤ x.point)) = some m := by
  cases g with
  | nil => simp [firstMax, firstMaxAcc] at h
  | cons x t =>
    have h' : firstMaxAcc (some x) t = some m := by
      simpa [firstMax, firstMaxAcc, pickBest] using h
    rcases firstMaxAcc_props t x m h' with ⟨⟨hx, ht⟩, hfind⟩
    refine ⟨List.mem_of_find?_eq_some hfind, ?_, hfind⟩
    intro y hy
    rcases List.mem_cons.mp hy with hy | hy
    · subst hy; exact hx
    · exact ht y hy

theorem map_id_upsertBest (x : NRoom) :
    ∀ m : List NRoom,
      (upsertBest m x).map (fun p => p.room_id) =
        if (m.map (fun p => p.room_id)).contains x.room_id then m.map (fun p => p.room_id)
        else m.map (fun p => p.room_id) ++ [x.room_id] := by
  intro m
  induction m with
  | nil => simp [upsertBest]
  | cons p rest ih =>
    by_cases hpr : p.room_id = x.room_id
    · have hc : (((p :: rest).map (fun p => p.room_id)).contains x.room_id) = true := by
        simp [List.contains_cons, hpr]
      have hhead : (if x.point > p.point then x else p).room_id = p.room_id := by
        by_cases hg : x.point > p.point <;> simp [hg, hpr]
      have hu : upsertBest (p :: rest) x = (if x.point > p.point then x else p) :: rest := by
        simp only [upsertBest]
        rw [if_pos hpr]
      rw [hu, if_pos hc]
      simp only [List.map_cons, hhead]
    · have hu : upsertBest (p :: rest) x = p :: upsertBest rest x := by
        simp only [upsertBest]
        rw [if_neg hpr]
      have hxp : (x.room_id == p.room_id) = false := by
        apply Bool.eq_false_iff.mpr
        intro hcc
        exact hpr (beq_iff_eq.mp hcc).symm
      have hcontains : (((p :: rest).map (fun p => p.room_id)).contains x.room_id) =
          ((rest.map (fun p => p.room_id)).contains x.room_id) := by
        rw [List.map_cons, List.contains_cons, hxp, Bool.false_or]
      rw [hu, List.map_cons, ih, hcontains]
      by_cases hc : ((rest.map (fun p => p.room_id)).contains x.room_id) = true
      · rw [if_pos hc, if_pos hc, List.map_cons]
      · rw [if_neg hc, if_neg hc, List.map_cons]
        simp

theorem nodup_map_id_dedupFold :
    ∀ (l acc : List NRoom), (acc.map (fun p => p.room_id)).Nodup →
      ((l.foldl dedupStep acc).map (fun p => p.room_id)).Nodup := by
  intro l
  induction l with
  | nil => intro acc h; exact h
  | cons r t ih =>
    intro acc h
    rw [List.foldl_cons]
    apply ih
    unfold dedupStep
    by_cases hr0 : r.room_id = ""
    · rw [if_pos hr0]; exact h
    · rw [if_neg hr0, map_id_upsertBest]
      by_cases hc : (acc.map (fun p => p.room_id)).contains r.room_id
      · rw [if_pos hc]; exact h
      · rw [if_neg hc]
        have hnm : r.room_id ∉ acc.map (fun p => p.room_id) := by
          simpa using hc
        exact List.Nodup.append h (List.nodup_singleton _) (by
          intro a ha hb
          simp at hb
          subst hb
          exact hnm ha)

theorem bestByRoom_ids_nodup (l : List NRoom) :
    ((bestByRoom l).map (fun p => p.room_id)).Nodup :=
  nodup_map_id_dedupFold l [] (by simp)

/-! Lemmas about the difference annotation and the assembled pipeline. -/

theorem length_diffTail : ∀ (prev : NRoom) (l : List NRoom), (diffTail prev l).length = l.length
  | _, [] => rfl
  | _, x :: rest => by simp [diffTail, length_diffTail x rest]

theorem length_withDiffs : ∀ l : List NRoom, (withDiffs l).length = l.length
  | [] => rfl
  | x :: rest => by simp [withDiffs, length_diffTail x rest]

theorem mem_diffTail : ∀ (prev : NRoom) (l : List NRoom) (y : RankOut),
    y ∈ diffTail prev l → ∃ x ∈ l, ∃ dd, y = mkOut x dd
  | _, [], y, hy => absurd hy (by simp [diffTail])
  | prev, x :: rest, y, hy => by
    rcases List.mem_cons.mp hy with hy | hy
    · exact ⟨x, List.mem_cons_self x rest, _, hy⟩
    · rcases mem_diffTail x rest y hy with ⟨z, hz, dd, hdd⟩
      exact ⟨z, List.mem_cons_of_mem x hz, dd, hdd⟩

theorem mem_withDiffs : ∀ (l : List NRoom) (y : RankOut),
    y ∈ withDiffs l → ∃ x ∈ l, ∃ dd, y = mkOut x dd
  | [], y, hy => absurd hy (by simp [withDiffs])
  | x :: rest, y, hy => by
    rcases List.mem_cons.mp hy with hy | hy
    · exact ⟨x, List.mem_cons_self x rest, _, hy⟩
    · rcases mem_diffTail x rest y hy with ⟨z, hz, dd, hdd⟩
      exact ⟨z, List.mem_cons_of_mem x hz, dd, hdd⟩

theorem map_id_diffTail : ∀ (prev : NRoom) (l : List NRoom),
    (diffTail prev l).map (fun p => p.room_id) = l.map (fun p => p.room_id)
  | _, [] => rfl
  | prev, x :: rest => by
    simp only [diffTail, List.map_cons, map_id_diffTail x rest, mkOut]

theorem map_id_withDiffs : ∀ l : List NRoom,
    (withDiffs l).map (fun p => p.room_id) = l.map (fun p => p.room_id)
  | [] => rfl
  | x :: rest => by
    simp only [withDiffs, List.map_cons, map_id_diffTail x rest, mkOut]

theorem point_diffTail : ∀ (prev : NRoom) (l : List NRoom) (i : Nat)
    (h : i < l.length) (h2 : i < (diffTail prev l).length),
    (diffTail prev l)[i].point = l[i].point
  | _, _ :: _, 0, _, _ => rfl
  | prev, x :: rest, i + 1, h, h2 =>
    point_diffTail x rest i (by simpa using h) (by simpa [diffTail, length_diffTail] using h2)

theorem pdiff_diffTail : ∀ (prev : NRoom) (l : List NRoom) (i : Nat)
    (h : i < l.length) (h2 : i < (diffTail prev l).length) (h3 : i < (prev :: l).length),
    (diffTail prev l)[i].point_diff = .diff ((prev :: l)[i].point - l[i].point)
  | _, _ :: _, 0, _, _, _ => rfl
  | prev, x :: rest, i + 1, h, h2, h3 =>
    pdiff_diffTail x rest i (by simpa using h)
      (by simpa [diffTail, length_diffTail] using h2)
      (by simp only [List.length_cons] at h ⊢; omega)

theorem point_withDiffs : ∀ (l : List NRoom) (i : Nat) (h : i < l.length)
    (h2 : i < (withDiffs l).length), (withDiffs l)[i].point = l[i].point
  | _ :: _, 0, _, _ => rfl
  | x :: rest, i + 1, h, h2 =>
    point_diffTail x rest i (by simpa using h)
      (by simpa [withDiffs, length_diffTail] using h2)

theorem pdiff_withDiffs_zero : ∀ (l : List NRoom) (h : 0 < (withDiffs l).length),
    (withDiffs l)[0].point_diff = .dash
  | [], h => by simp [withDiffs] at h
  | _ :: _, _ => rfl

theorem pdiff_withDiffs_succ : ∀ (l : List NRoom) (i : Nat) (h : i + 1 < l.length)
    (h2 : i + 1 < (withDiffs l).length) (h3 : i < l.length),
    (withDiffs l)[i + 1].point_diff = .diff (l[i].point - l[i + 1].point)
  | x :: rest, i, h, h2, h3 =>
    pdiff_diffTail x rest i (by simpa using h)
      (by simpa [withDiffs, length_diffTail] using h2) (by simpa using h3)

theorem pairwise_diffTail {R : RankOut → RankOut → Prop} {S : NRoom → NRoom → Prop}
    (hRS : ∀ a b da db, S a b → R (mkOut a da) (mkOut b db)) :
    ∀ (prev : NRoom) {l : List NRoom}, l.Pairwise S → (diffTail prev l).Pairwise R := by
  intro prev l
  induction l generalizing prev with
  | nil => intro _; exact List.Pairwise.nil
  | cons x rest ih =>
    intro h
    rcases List.pairwise_cons.mp h with ⟨hx, ht⟩
    refine List.pairwise_cons.mpr ⟨?_, ih x ht⟩
    intro y hy
    rcases mem_diffTail x rest y hy with ⟨z, hz, dd, hdd⟩
    rw [hdd]
    exact hRS _ _ _ _ (hx z hz)

theorem pairwise_withDiffs {R : RankOut → RankOut → Prop} {S : NRoom → NRoom → Prop}
    (hRS : ∀ a b da db, S a b → R (mkOut a da) (mkOut b db)) :
    ∀ {l : List NRoom}, l.Pairwise S → (withDiffs l).Pairwise R := by
  intro l h
  cases l with
  | nil => exact List.Pairwise.nil
  | cons x rest =>
    rcases List.pairwise_cons.mp h with ⟨hx, ht⟩
    refine List.pairwise_cons.mpr ⟨?_, pairwise_diffTail hRS x ht⟩
    intro y hy
    rcases mem_diffTail x rest y hy with ⟨z, hz, dd, hdd⟩
    rw [hdd]
    exact hRS _ _ _ _ (hx z hz)

theorem get_event_ranking_ok (f : Nat → PageFetch) (limit : Nat) (rooms : List RawRoom)
    (h : fetchLoop f = .ok rooms) (hne : rooms ≠ []) :
    get_event_ranking f limit = rankingCore rooms limit := by
  unfold get_event_ranking
  rw [h]
  have h1 : rooms.isEmpty = false := by simpa [List.isEmpty_iff] using hne
  have h2 : (rooms.map normalizeRoom).isEmpty = false := by
    simpa [List.isEmpty_iff] using hne
  simp [h1, h2]

theorem get_event_ranking_cases (f : Nat → PageFetch) (limit : Nat) :
    get_event_ranking f limit = [] ∨
      ∃ rooms, fetchLoop f = .ok rooms ∧ rooms ≠ [] ∧
        get_event_ranking f limit = rankingCore rooms limit := by
  cases hfl : fetchLoop f with
  | error e =>
    left
    unfold get_event_ranking
    rw [hfl]
  | ok rooms =>
    by_cases hne : rooms = []
    · left
      unfold get_event_ranking
      rw [hfl, hne]
      rfl
    · exact Or.inr ⟨rooms, rfl, hne, get_event_ranking_ok f limit rooms hfl hne⟩

theorem ranking_ids_nodup (f : Nat → PageFetch) (limit : Nat) :
    ((get_event_ranking f limit).map (fun p => p.room_id)).Nodup := by
  rcases get_event_ranking_cases f limit with h | ⟨rooms, hok, hne, heq⟩
  · rw [h]; simp
  · rw [heq]
    unfold rankingCore
    rw [List.map_take]
    apply List.Nodup.sublist (List.take_sublist _ _)
    rw [map_id_withDiffs]
    exact (((sortRooms_perm (dedupedOf rooms)).map (fun p => p.room_id)).nodup_iff).mpr
      (bestByRoom_ids_nodup _)

theorem ranking_mem_deduped (f : Nat → PageFetch) (limit : Nat) (e : RankOut)
    (he : e ∈ get_event_ranking f limit) :
    ∃ rooms, fetchLoop f = .ok rooms ∧
      ∃ d ∈ bestByRoom (rooms.map normalizeRoom),
        e.room_id = d.room_id ∧ e.room_name = d.room_name ∧ e.rank = d.rank ∧
          e.point = d.point ∧ e.quest_level = d.quest_level := by
  rcases get_event_ranking_cases f limit with h | ⟨rooms, hok, hne, heq⟩
  · rw [h] at he
    simp at he
  · rw [heq] at he
    unfold rankingCore at he
    have he2 : e ∈ withDiffs (sortRooms (dedupedOf rooms)) :=
      (List.take_sublist _ _).mem he
    rcases mem_withDiffs _ e he2 with ⟨x, hx, dd, hdd⟩
    refine ⟨rooms, hok, x, (sortRooms_perm _).mem_iff.mp hx, ?_, ?_, ?_, ?_, ?_⟩ <;>
      rw [hdd] <;> rfl

theorem ranking_length_le (f : Nat → PageFetch) (limit : Nat) :
    (get_event_ranking f limit).length ≤ limit := by
  rcases get_event_ranking_cases f limit with h | ⟨rooms, _, _, heq⟩
  · rw [h]; simp
  · rw [heq]
    exact List.length_take_le _ _

theorem ranking_pairwise_rank (f : Nat → PageFetch) (limit : Nat) (rooms : List RawRoom)
    (hok : fetchLoop f = .ok rooms) (hrt : isRankType (dedupedOf rooms) = true) :
    (get_event_ranking f limit).Pairwise
      (fun a b => keyLe (rankKey a.rank) (rankKey b.rank) = true) := by
  by_cases hne : rooms = []
  · unfold get_event_ranking
    rw [hok, hne]
    exact List.Pairwise.nil
  · rw [get_event_ranking_ok f limit rooms hok hne]
    unfold rankingCore
    apply List.Pairwise.sublist (List.take_sublist _ _)
    apply pairwise_withDiffs (S := fun a b => rankLeRoom a b = true)
      (fun a b da db hS => hS)
    unfold sortRooms
    rw [if_pos hrt]
    exact stableSort_pairwise rankLeRoom_total rankLeRoom_trans _

theorem ranking_pairwise_point (f : Nat → PageFetch) (limit : Nat) (rooms : List RawRoom)
    (hok : fetchLoop f = .ok rooms) (hrt : isRankType (dedupedOf rooms) = false) :
    (get_event_ranking f limit).Pairwise (fun a b => b.point ≤ a.point) := by
  by_cases hne : rooms = []
  · unfold get_event_ranking
    rw [hok, hne]
    exact List.Pairwise.nil
  · rw [get_event_ranking_ok f limit rooms hok hne]
    unfold rankingCore
    apply List.Pairwise.sublist (List.take_sublist _ _)
    apply pairwise_withDiffs (S := fun a b => pointGeRoom a b = true)
      (fun a b da db hS => by
        show b.point ≤ a.point
        simpa [pointGeRoom] using hS)
    unfold sortRooms
    rw [if_neg (by rw [hrt]; exact Bool.false_ne_true)]
    exact stableSort_pairwise pointGeRoom_total pointGeRoom_trans _

/-- C1: after de-duplication the listing holds at most one record per room
identity (the identities of the returned records are pairwise distinct, and
every returned record is one of the de-duplication survivors), and for
every identity group the survivor delivered by `best_by_room` is the first
record of the group attaining the greatest score: its score bounds the
whole group and it is the first group member whose score reaches that
bound (ties keep the first record encountered). -/
theorem claim_C1_dedup_max (f : Nat → PageFetch) (limit : Nat) (l : List NRoom) (rid : String)
    (hrid : rid ≠ "") :
    ((get_event_ranking f limit).map (fun p => p.room_id)).Nodup ∧
    (∀ e ∈ get_event_ranking f limit,
      ∃ rooms, fetchLoop f = .ok rooms ∧
        ∃ d ∈ bestByRoom (rooms.map normalizeRoom),
          e.room_id = d.room_id ∧ e.room_name = d.room_name ∧ e.rank = d.rank ∧
            e.point = d.point ∧ e.quest_level = d.quest_level) ∧
    ((bestByRoom l).find? (fun p => p.room_id == rid) =
      firstMax (l.filter (fun r => r.room_id == rid))) ∧
    (∀ g m, firstMax g = some m →
      m ∈ g ∧ (∀ x ∈ g, x.point ≤ m.point) ∧
        g.find? (fun x => decide (m.point ≤ x.point)) = some m) :=
  ⟨ranking_ids_nodup f limit, fun e he => ranking_mem_deduped f limit e he,
    find?_bestByRoom l rid hrid, fun g m hm => firstMax_props g m hm⟩

/-- Witness for C1 at a concrete listing: the identity `"55"` is nonempty,
and on a group with scores 10, 20, 20 the survivor is the first record with
score 20. -/
theorem claim_C1_dedup_max_witness :
    ("55" : String) ≠ "" ∧
    ((bestByRoom w1L).find? (fun p => p.room_id == "55") =
      firstMax (w1L.filter (fun r => r.room_id == "55"))) ∧
    (bestByRoom w1L).find? (fun p => p.room_id == "55") =
      some { room_id := "55", room_name := .pyStr "y", rank := .nrStr "-", point := 20,
             quest_level := .pyStr "" } :=
  ⟨by decide, (claim_C1_dedup_max cex2F 10 w1L "55" (by decide)).2.2.1, by decide⟩

/-- C9: in a nonempty result of `get_event_ranking` the first record's
`point_diff` is the dash marker, and each later record's `point_diff` is
the predecessor's score minus its own score. -/
theorem claim_C9_point_diff (f : Nat → PageFetch) (limit : Nat)
    (h0 : 0 < (get_event_ranking f limit).length) :
    (get_event_ranking f limit)[0].point_diff = .dash ∧
    ∀ (i : Nat) (h1 : i + 1 < (get_event_ranking f limit).length),
      (get_event_ranking f limit)[i + 1].point_diff =
        .diff ((get_event_ranking f limit)[i].point -
          (get_event_ranking f limit)[i + 1].point) := by
  rcases get_event_ranking_cases f limit with h | ⟨rooms, hok, hne, heq⟩
  · rw [h] at h0
    simp at h0
  · have hlen : 0 < (withDiffs (sortRooms (dedupedOf rooms))).length := by
      have h0' := h0
      rw [heq] at h0'
      unfold rankingCore at h0'
      rw [List.length_take] at h0'
      omega
    constructor
    · have e0 : (get_event_ranking f limit)[0] =
          (withDiffs (sortRooms (dedupedOf rooms)))[0] := by
        simp only [heq]
        unfold rankingCore
        rw [List.getElem_take]
      rw [e0]
      exact pdiff_withDiffs_zero _ hlen
    · intro i h1
      have hl2 : i + 1 < (withDiffs (sortRooms (dedupedOf rooms))).length := by
        have h1' := h1
        rw [heq] at h1'
        unfold rankingCore at h1'
        rw [List.length_take] at h1'
        omega
      have hlsorted : i + 1 < (sortRooms (dedupedOf rooms)).length := by
        rw [length_withDiffs] at hl2
        exact hl2
      have e2 : (get_event_ranking f limit)[i + 1] =
          (withDiffs (sortRooms (dedupedOf rooms)))[i + 1] := by
        simp only [heq]
        unfold rankingCore
        rw [List.getElem_take]
      have e1 : (get_event_ranking f limit)[i] =
          (withDiffs (sortRooms (dedupedOf rooms)))[i] := by
        simp only [heq]
        unfold rankingCore
        rw [List.getElem_take]
      rw [e1, e2, pdiff_withDiffs_succ _ i hlsorted hl2 (by omega),
        point_withDiffs _ i (by omega) (by omega),
        point_withDiffs _ (i + 1) (by omega) (by omega)]

/-- Witness for C9 at a concrete two-record listing: the result is
nonempty, the first `point_diff` is the dash and the second is the
difference to the leader. -/
theorem claim_C9_point_diff_witness :
    0 < (get_event_ranking cex2F 10).length ∧
    ((get_event_ranking cex2F 10).get ⟨0, by decide⟩).point_diff = PDiff.dash ∧
    ((get_event_ranking cex2F 10).get ⟨1, by decide⟩).point_diff = PDiff.diff (-50) :=
  ⟨by decide, (claim_C9_point_diff cex2F 10 (by decide)).1, by
    simp only [List.get_eq_getElem]
    rw [(claim_C9_point_diff cex2F 10 (by decide)).2 0 (by decide)]
    decide⟩

/-- C10: when at least one de-duplicated record carries a Python integer
rank the result is ordered by `rank_sort_key` ascending (integer ranks
first, by value; records without a numeric rank get the key `(1, 999999)`
and therefore go last); only when no record has an integer rank is the
result ordered by score descending. -/
theorem claim_C10_order_mode (f : Nat → PageFetch) (limit : Nat) (rooms : List RawRoom)
    (hok : fetchLoop f = .ok rooms) :
    (isRankType (dedupedOf rooms) = true →
      (get_event_ranking f limit).Pairwise
        (fun a b => keyLe (rankKey a.rank) (rankKey b.rank) = true)) ∧
    (isRankType (dedupedOf rooms) = false →
      (get_event_ranking f limit).Pairwise (fun a b => b.point ≤ a.point)) :=
  ⟨ranking_pairwise_rank f limit rooms hok, ranking_pairwise_point f limit rooms hok⟩

/-- Witness for C10 at a concrete rank-type listing whose rank order
disagrees with its score order. -/
theorem claim_C10_order_mode_witness :
    fetchLoop cex2F = Except.ok [cex2RoomA, cex2RoomB] ∧
    isRankType (dedupedOf [cex2RoomA, cex2RoomB]) = true ∧
    (get_event_ranking cex2F 10).Pairwise
      (fun a b => keyLe (rankKey a.rank) (rankKey b.rank) = true) :=
  ⟨rfl, by decide,
    (claim_C10_order_mode cex2F 10 [cex2RoomA, cex2RoomB] rfl).1 (by decide)⟩

/-- C2 counterexample: on a one-page rank-type listing of two records with
limit 10 the result is ordered `[50, 100]` — not by score descending — and
has length 2, which is neither `limit` nor `limit + 1`; no target entity is
ever appended (`get_event_ranking` takes no target argument). -/
theorem claim_C2_counterexample :
    (get_event_ranking cex2F 10).map (fun x => x.point) = [50, 100] ∧
    (get_event_ranking cex2F 10).length = 2 := by
  decide

/-- C2 amended: the result of `get_event_ranking` is truncated to at most
`limit` records (no target row is appended, so the length never exceeds
`limit`), and it is ordered by score descending exactly when no
de-duplicated record carries an integer rank. -/
theorem claim_C2_amended_truncation (f : Nat → PageFetch) (limit : Nat) :
    (get_event_ranking f limit).length ≤ limit ∧
    ∀ rooms, fetchLoop f = .ok rooms → isRankType (dedupedOf rooms) = false →
      (get_event_ranking f limit).Pairwise (fun a b => b.point ≤ a.point) :=
  ⟨ranking_length_le f limit,
    fun rooms hok h => ranking_pairwise_point f limit rooms hok h⟩

/-- Witness for the amended C2 at a concrete level-type listing. -/
theorem claim_C2_amended_truncation_witness :
    (get_event_ranking w2F 10).length ≤ 10 ∧
    (get_event_ranking w2F 10).Pairwise (fun a b => b.point ≤ a.point) :=
  ⟨(claim_C2_amended_truncation w2F 10).1,
    (claim_C2_amended_truncation w2F 10).2 [w2Room] rfl (by decide)⟩

/-! Lemmas about the pagination loop. -/

theorem fetchGo_succ_praise (f : Nat → PageFetch) (fuel page : Nat) (acc : List RawRoom)
    (hfp : f page = .praise) : fetchGo f (fuel + 1) page acc = .error () := by
  unfold fetchGo
  rw [hfp]

theorem fetchGo_succ_status (f : Nat → PageFetch) (fuel page : Nat) (acc : List RawRoom)
    (s : Nat) (b : Except Unit PageBody) (hfp : f page = .presp s b) (hs : s ≠ 200) :
    fetchGo f (fuel + 1) page acc = .ok acc := by
  unfold fetchGo
  rw [hfp]
  simp [hs]

theorem fetchGo_succ_full (f : Nat → PageFetch) (fuel page : Nat) (acc : List RawRoom)
    (d : PageBody) (hfp : f page = .presp 200 (.ok d)) (hlen : (pageRooms d).length = 30) :
    fetchGo f (fuel + 1) page acc = fetchGo f fuel (page + 1) (acc ++ pageRooms d) := by
  have hne : (pageRooms d).isEmpty = false := by
    have h0 : pageRooms d ≠ [] := by
      intro h0
      rw [h0] at hlen
      simp at hlen
    simpa [List.isEmpty_iff] using h0
  have hnl : ¬((pageRooms d).length < 30) := by omega
  conv_lhs => unfold fetchGo
  rw [hfp]
  simp [hne, hnl]

theorem fetchGo_praise_run (f : Nat → PageFetch) (dpage : Nat → PageBody) :
    ∀ (m fuel page : Nat) (acc : List RawRoom), m < fuel →
      (∀ j, page ≤ j → j < page + m → fullOkPage f dpage j) →
      f (page + m) = .praise → fetchGo f fuel page acc = .error () := by
  intro m
  induction m with
  | zero =>
    intro fuel page acc hf hok hpr
    cases fuel with
    | zero => omega
    | succ fuel => exact fetchGo_succ_praise f fuel page acc (by simpa using hpr)
  | succ m ih =>
    intro fuel page acc hf hok hpr
    cases fuel with
    | zero => omega
    | succ fuel =>
      rcases hok page (le_refl _) (by omega) with ⟨hfp, hlen⟩
      rw [fetchGo_succ_full f fuel page acc (dpage page) hfp hlen]
      exact ih fuel (page + 1) _ (by omega)
        (fun j h1 h2 => hok j (by omega) (by omega))
        (by rw [show page + 1 + m = page + (m + 1) from by omega]; exact hpr)

theorem fetchGo_status_run (f : Nat → PageFetch) (dpage : Nat → PageBody) :
    ∀ (m fuel page : Nat) (acc : List RawRoom) (s : Nat) (b : Except Unit PageBody),
      m < fuel →
      (∀ j, page ≤ j → j < page + m → fullOkPage f dpage j) →
      f (page + m) = .presp s b → s ≠ 200 →
      fetchGo f fuel page acc = .ok (acc ++ concatPages dpage page m) := by
  intro m
  induction m with
  | zero =>
    intro fuel page acc s b hf hok hfp hs
    cases fuel with
    | zero => omega
    | succ fuel =>
      rw [fetchGo_succ_status f fuel page acc s b (by simpa using hfp) hs]
      simp [concatPages]
  | succ m ih =>
    intro fuel page acc s b hf hok hfp hs
    cases fuel with
    | zero => omega
    | succ fuel =>
      rcases hok page (le_refl _) (by omega) with ⟨hfp2, hlen⟩
      rw [fetchGo_succ_full f fuel page acc (dpage page) hfp2 hlen]
      rw [ih fuel (page + 1) _ s b (by omega)
        (fun j h1 h2 => hok j (by omega) (by omega))
        (by rw [show page + 1 + m = page + (m + 1) from by omega]; exact hfp) hs]
      simp [concatPages, List.append_assoc]

/-- C5 amended: pagination requests pages until a short page, an empty
page, a non-OK status, or the five-page ceiling; a non-OK status
mid-pagination stops the loop and keeps the rooms accumulated so far, but
a raised transport failure mid-pagination makes `get_event_ranking` return
the empty list — the accumulated pages are discarded by the catch-all
handler, although the function does not crash. -/
theorem claim_C5_pagination (f : Nat → PageFetch) (dpage : Nat → PageBody) (limit k : Nat)
    (hk1 : 1 ≤ k) (hk5 : k ≤ 5)
    (hfull : ∀ j, 1 ≤ j → j < k → fullOkPage f dpage j) :
    (f k = .praise → get_event_ranking f limit = []) ∧
    (∀ s b, f k = .presp s b → s ≠ 200 →
      fetchLoop f = .ok (concatPages dpage 1 (k - 1))) := by
  constructor
  · intro hpr
    have herr : fetchLoop f = .error () := by
      unfold fetchLoop
      exact fetchGo_praise_run f dpage (k - 1) 5 1 [] (by omega)
        (fun j h1 h2 => hfull j h1 (by omega))
        (by rw [show 1 + (k - 1) = k from by omega]; exact hpr)
    unfold get_event_ranking
    rw [herr]
  · intro s b hfp hs
    unfold fetchLoop
    rw [fetchGo_status_run f dpage (k - 1) 5 1 [] s b (by omega)
      (fun j h1 h2 => hfull j h1 (by omega))
      (by rw [show 1 + (k - 1) = k from by omega]; exact hfp) hs]
    simp

/-- C5 counterexample: with a full first page and a raised transport
failure on the second request the aggregator returns the empty list — the
accumulated first page is discarded — whereas the same listing with a
not-found second response keeps it (one surviving record after
de-duplication). -/
theorem claim_C5_counterexample :
    get_event_ranking cex5F 10 = [] ∧ (get_event_ranking cex5G 10).length = 1 := by
  decide

/-- Witness for the amended C5 at the concrete oracle whose second request
raises. -/
theorem claim_C5_pagination_witness :
    (1 ≤ 2 ∧ 2 ≤ 5) ∧ (∀ j, 1 ≤ j → j < 2 → fullOkPage cex5F cex5D j) ∧
      get_event_ranking cex5F 10 = [] := by
  have hf : ∀ j, 1 ≤ j → j < 2 → fullOkPage cex5F cex5D j := by
    intro j h1 h2
    have hj : j = 1 := by omega
    subst hj
    exact ⟨rfl, by decide⟩
  exact ⟨⟨by omega, by omega⟩, hf,
    (claim_C5_pagination cex5F cex5D 10 2 (by omega) (by omega) hf).1 rfl⟩

/-- C6: a falsy `event_id` (absent, `None` or the empty string) makes
`get_event_participants` return the empty participant list immediately,
with zero HTTP requests issued. -/
theorem claim_C6_empty_event (ev : EventObj) (pg : Nat → List PEntry)
    (prof : PyVal → Option Profile) (limit : Nat) (h : pyTruthy ev.event_id = false) :
    get_event_participants ev pg prof limit = ([], 0) := by
  unfold get_event_participants
  rw [h]
  simp

/-- Witness for C6 at a `None` event identifier. -/
theorem claim_C6_empty_event_witness :
    pyTruthy (EventObj.mk .pyNone).event_id = false ∧
    get_event_participants { event_id := .pyNone } cex4Pg cex4Prof 10 = ([], 0) :=
  ⟨by decide, claim_C6_empty_event { event_id := .pyNone } cex4Pg cex4Prof 10 (by decide)⟩

/-- C4 counterexample: entity 2 is in the listing but its profile lookup
fails, so it is omitted from the participants entirely — it is not kept
with "unavailable" enrichment fields as the claim states; the other entity
is fully enriched and the call returns normally. -/
theorem claim_C4_counterexample :
    ((get_event_participants cex4Ev cex4Pg cex4Prof 10).1).map (fun p => p.room_id) = ["1"] ∧
    (fetch_phase cex4Pg).map (fun e => pyStrOf e.room_id) = ["1", "2"] ∧
    cex4Prof (.pyStr "2") = none := by
  decide

/-- C4 amended: a failing profile lookup causes that entity to be omitted
from the participant list rather than degraded; every returned participant
comes from a successful, truthy profile response and carries exactly the
enrichment fields built from it, and the call always returns a
well-defined pair (no exception escapes). -/
theorem claim_C4_profile_isolation (ev : EventObj) (pg : Nat → List PEntry)
    (prof : PyVal → Option Profile) (limit : Nat) (p : Participant)
    (hp : p ∈ (get_event_participants ev pg prof limit).1) :
    ∃ v pr q, prof v = some pr ∧ profTruthy pr = true ∧ mkParticipant? v pr = some q ∧
      p.room_id = q.room_id ∧ p.room_name = q.room_name ∧ p.room_level = q.room_level ∧
      p.show_rank_subdivided = q.show_rank_subdivided ∧ p.follower_num = q.follower_num ∧
      p.live_continuous_days = q.live_continuous_days := by
  unfold get_event_participants at hp
  by_cases h1 : (!pyTruthy ev.event_id) = true
  · rw [if_pos h1] at hp
    simp at hp
  · rw [if_neg h1] at hp
    by_cases h2 : (fetch_phase pg).isEmpty = true
    · rw [if_pos h2] at hp
      simp at hp
    · rw [if_neg h2] at hp
      by_cases h3 : (stableSort partGe (participantsOf (roomIdsOf pg) prof)).isEmpty = true
      · rw [if_pos h3] at hp
        simp at hp
      · rw [if_neg h3] at hp
        have hp' : p ∈ ((stableSort partGe (participantsOf (roomIdsOf pg) prof)).take
            limit).map (joinRank (buildRankMap (fetch_phase pg))) := hp
        rcases List.mem_map.mp hp' with ⟨q', hq', hjoin⟩
        have hq'sorted : q' ∈ stableSort partGe (participantsOf (roomIdsOf pg) prof) :=
          (List.take_sublist _ _).mem hq'
        have hq'parts : q' ∈ participantsOf (roomIdsOf pg) prof :=
          (stableSort_perm partGe _).mem_iff.mp hq'sorted
        rcases List.mem_filterMap.mp hq'parts with ⟨v, hv, hbind⟩
        rcases Option.bind_eq_some.mp hbind with ⟨pr, hpr, hmk⟩
        have htr : profTruthy pr = true := by
          by_contra hnt
          have hfalse : profTruthy pr = false := by simpa using hnt
          unfold mkParticipant? at hmk
          rw [hfalse] at hmk
          simp at hmk
        refine ⟨v, pr, q', hpr, htr, hmk, ?_, ?_, ?_, ?_, ?_, ?_⟩ <;>
          · rw [← hjoin]
            unfold joinRank
            cases lookAssoc (buildRankMap (fetch_phase pg)) q'.room_id <;> rfl

/-- Witness for the amended C4: the surviving participant of the concrete
scenario is fully enriched from its successful profile lookup. -/
theorem claim_C4_profile_isolation_witness :
    w4P ∈ (get_event_participants cex4Ev cex4Pg cex4Prof 10).1 ∧
    ∃ v pr q, cex4Prof v = some pr ∧ profTruthy pr = true ∧
      mkParticipant? v pr = some q ∧
      w4P.room_id = q.room_id ∧ w4P.room_name = q.room_name ∧
      w4P.room_level = q.room_level ∧
      w4P.show_rank_subdivided = q.show_rank_subdivided ∧
      w4P.follower_num = q.follower_num ∧
      w4P.live_continuous_days = q.live_continuous_days :=
  ⟨by decide, claim_C4_profile_isolation cex4Ev cex4Pg cex4Prof 10 w4P (by decide)⟩

/-- C7 counterexample: a 200 response whose body is valid JSON but a list
rather than an object makes `get_total_entries` raise an uncaught
`AttributeError` (`data.get` on a list), modelled as `Except.error` —
contradicting "it never raises". -/
theorem claim_C7_counterexample :
    get_total_entries (.tresp 200 (.ok (.jlist []))) = .error () := rfl

/-- C7 amended: `get_total_entries` returns 0 on a 404, the sentinel
`"N/A"` on a raised transport error, on an HTTP error status and on a
malformed (unparsable) body, and it never raises provided any well-formed
body of a successful response is a JSON object; a valid-JSON non-object
body instead raises an uncaught `AttributeError`. -/
theorem claim_C7_total_entries (s : Nat) (b : Except Unit JVal)
    (kvs : List (String × JVal)) :
    (get_total_entries (.tresp 404 b) = .ok (.jnum 0)) ∧
    (get_total_entries .traise = .ok (.jstr "N/A")) ∧
    (s ≠ 404 → raiseForStatus s = true → get_total_entries (.tresp s b) = .ok (.jstr "N/A")) ∧
    (s ≠ 404 → raiseForStatus s = false →
      get_total_entries (.tresp s (.error ())) = .ok (.jstr "N/A")) ∧
    (get_total_entries (.tresp s (.ok (.jdict kvs))) ≠ .error ()) := by
  have h404 : ∀ b' : Except Unit JVal, get_total_entries (.tresp 404 b') = .ok (.jnum 0) := by
    intro b'
    rfl
  refine ⟨h404 b, rfl, ?_, ?_, ?_⟩
  · intro hs hr
    simp only [get_total_entries]
    rw [if_neg (by simpa using hs), if_pos hr]
  · intro hs hr
    simp only [get_total_entries]
    rw [if_neg (by simpa using hs), if_neg (by rw [hr]; exact Bool.false_ne_true)]
  · by_cases hs : (s == 404) = true
    · simp only [get_total_entries]
      rw [if_pos hs]
      simp
    · by_cases hr : raiseForStatus s = true
      · simp only [get_total_entries]
        rw [if_neg hs, if_pos hr]
        simp
      · simp only [get_total_entries]
        rw [if_neg hs, if_neg hr]
        simp

/-- Witness for the amended C7 at concrete statuses and bodies. -/
theorem claim_C7_total_entries_witness :
    ((500 : Nat) ≠ 404 ∧ raiseForStatus 500 = true) ∧
    get_total_entries (.tresp 404 (.error ())) = .ok (.jnum 0) ∧
    get_total_entries (.tresp 500 (.error ())) = .ok (.jstr "N/A") :=
  ⟨⟨by decide, by decide⟩, (claim_C7_total_entries 500 (.error ()) []).1,
    (claim_C7_total_entries 500 (.error ()) []).2.2.1 (by decide) (by decide)⟩

theorem pickListField_eq_spec : ∀ (ks : List String) (kvs : List (String × JVal)),
    pickListField ks kvs =
      ((ks.findSome? fun k =>
          match jlook kvs k with
          | some (.jlist l) => some l
          | _ => none).getD [])
  | [], _ => rfl
  | k :: ks, kvs => by
    rw [List.findSome?_cons]
    cases hk : jlook kvs k with
    | none =>
      simp only [pickListField, hk]
      exact pickListField_eq_spec ks kvs
    | some v =>
      cases v with
      | jlist l => simp [pickListField, hk]
      | jnull =>
        simp only [pickListField, hk]
        exact pickListField_eq_spec ks kvs
      | jbool b =>
        simp only [pickListField, hk]
        exact pickListField_eq_spec ks kvs
      | jnum n =>
        simp only [pickListField, hk]
        exact pickListField_eq_spec ks kvs
      | jstr s =>
        simp only [pickListField, hk]
        exact pickListField_eq_spec ks kvs
      | jdict d =>
        simp only [pickListField, hk]
        exact pickListField_eq_spec ks kvs

/-- C8: on a JSON-object response, `get_event_room_list_api` returns the
value of the first of the six candidate field names that is present and
list-typed, and the empty list when none matches — exactly the extractor
written from the specification's words. -/
theorem claim_C8_candidate_fields (kvs : List (String × JVal)) :
    get_event_room_list_api (.ok (.jdict kvs)) = specFirstListField kvs ∧
    roomListKeys = ["list", "room_list", "event_entry_list", "entries", "data", "event_list"] :=
  ⟨pickListField_eq_spec roomListKeys kvs, rfl⟩

/-- Witness for C3: idempotence applied at a concrete stripped-and-rewritten
input. -/
theorem claim_C3_normalization_idempotent_witness :
    normalize_event_id_val (liftNorm (normalize_event_id_val (.pyStr " 42.0 "))) =
      normalize_event_id_val (.pyStr " 42.0 ") ∧
    normalize_event_id_val (.pyStr " 42.0 ") = some "42" :=
  ⟨claim_C3_normalization_idempotent.1 (.pyStr " 42.0 "), by decide⟩

/-- Witness for C8 at a concrete object whose first candidate key holds a
non-list value and whose later candidate key holds a list. -/
theorem claim_C8_candidate_fields_witness :
    get_event_room_list_api (.ok (.jdict [("list", .jnum 0), ("data", .jlist [.jnum 1])])) =
      specFirstListField [("list", .jnum 0), ("data", .jlist [.jnum 1])] ∧
    specFirstListField [("list", .jnum 0), ("data", .jlist [.jnum 1])] = [.jnum 1] :=
  ⟨(claim_C8_candidate_fields [("list", .jnum 0), ("data", .jlist [.jnum 1])]).1, rfl⟩

end SrRoomStatus
